import Mathlib

/-!
# Verification of the transaction-generator script

Shallow embedding of `Scripts/generate_transactions.py`.

Modelling conventions:

* The single sequential pseudo-random source (Python's `random` module,
  seeded once in `__main__`) is modelled by a raw stream `g : ℕ → ℕ`
  together with a running position.  Each primitive of the `random` module
  consumes one raw value and interprets it so that its documented range is
  respected by construction (`randint lo hi` lands in `[lo, hi]`,
  `uniform a b` in `[a, b]`, `choice l` returns an element of `l`, and
  `random ()` lands in `[0, 1)`).  Fixing the seed fixes the stream.
* `random.shuffle` (library code, documented to produce a permutation of
  its input in place) is modelled as an oracle parameter
  `shuffle : List ℕ → List ℕ`; theorems that need it assume the
  permutation contract.
* Python floats are modelled by `ℚ`.  `round(x, 2)` is modelled by
  rounding to the nearest multiple of `1/100` (`round2`); the claims
  settled here are insensitive to the tie-breaking direction.
* `datetime` values are modelled as seconds elapsed since
  2023-01-01 00:00:00 (`base_date` in the script); `timedelta` offsets
  become the corresponding second counts.
* Python's `int()` on a float truncates toward zero (`pyInt`), while `//`
  on ints is floor division (`Int.fdiv`); both are modelled exactly.
-/

/-- Raw random stream: the `k`-th draw of the seeded sequential source. -/
abbrev RawStream := ℕ → ℕ

/-!
Exact rational arithmetic, written through `mkRat` and integer
operations so the kernel can evaluate concrete runs (`Rat.add`,
`Rat.mul`, `Rat.sub` and `Rat.inv` are `@[irreducible]`).  Each operation
is provably equal to the corresponding field operation on `ℚ` (see the
`_eq` lemmas below), so these are the ordinary exact semantics of the
Python float expressions, merely spelled executably.
-/

/-- Embedding of a Python int into `ℚ`. -/
def natQ (n : ℕ) : ℚ := mkRat n 1

/-- Embedding of an integer into `ℚ`. -/
def intQ (z : ℤ) : ℚ := mkRat z 1

/-- Exact rational addition. -/
def qAdd (x y : ℚ) : ℚ :=
  mkRat (x.num * (y.den : ℤ) + y.num * (x.den : ℤ)) (x.den * y.den)

/-- Exact rational subtraction. -/
def qSub (x y : ℚ) : ℚ :=
  mkRat (x.num * (y.den : ℤ) - y.num * (x.den : ℤ)) (x.den * y.den)

/-- Exact rational multiplication. -/
def qMul (x y : ℚ) : ℚ := mkRat (x.num * y.num) (x.den * y.den)

/-- Exact division of a rational by a natural number. -/
def qDivNat (x : ℚ) (n : ℕ) : ℚ := mkRat x.num (x.den * n)

/-- Round-to-nearest on `ℚ` (half away from zero at the midpoint, the
tie direction being irrelevant for every claim below). -/
def qRound (x : ℚ) : ℤ := (2 * x.num + (x.den : ℤ)) / (2 * (x.den : ℤ))

theorem natQ_eq (n : ℕ) : natQ n = (n : ℚ) := by
  unfold natQ
  rw [Rat.mkRat_eq_div _ _]
  norm_num

theorem intQ_eq (z : ℤ) : intQ z = (z : ℚ) := by
  unfold intQ
  rw [Rat.mkRat_eq_div _ _]
  norm_num

theorem qAdd_eq (x y : ℚ) : qAdd x y = x + y := by
  unfold qAdd
  rw [Rat.mkRat_eq_div _ _]
  push_cast
  conv_rhs => rw [← Rat.num_div_den x, ← Rat.num_div_den y]
  rw [div_add_div _ _ (by positivity) (by positivity)]
  ring_nf

theorem qSub_eq (x y : ℚ) : qSub x y = x - y := by
  unfold qSub
  rw [Rat.mkRat_eq_div _ _]
  push_cast
  conv_rhs => rw [← Rat.num_div_den x, ← Rat.num_div_den y]
  rw [div_sub_div _ _ (by positivity) (by positivity)]
  ring_nf

theorem qMul_eq (x y : ℚ) : qMul x y = x * y := by
  unfold qMul
  rw [Rat.mkRat_eq_div _ _]
  push_cast
  conv_rhs => rw [← Rat.num_div_den x, ← Rat.num_div_den y]
  rw [div_mul_div_comm]

theorem qDivNat_eq (x : ℚ) (n : ℕ) : qDivNat x n = x / (n : ℚ) := by
  unfold qDivNat
  rcases Nat.eq_zero_or_pos n with h | h
  · simp [h, Rat.mkRat_eq_div]
  · rw [Rat.mkRat_eq_div _ _]
    push_cast
    conv_rhs => rw [← Rat.num_div_den x]
    rw [div_div]

theorem qRound_eq (x : ℚ) : qRound x = round x := by
  unfold qRound
  rw [round_eq]
  have h : x + 1 / 2 =
      ((2 * x.num + (x.den : ℤ) : ℤ) : ℚ) / (((2 * x.den : ℕ) : ℕ) : ℚ) := by
    push_cast
    conv_lhs => rw [← Rat.num_div_den x]
    rw [div_add_div _ _ (by positivity) (by norm_num)]
    ring_nf
  rw [h, Rat.floor_intCast_div_natCast]
  push_cast
  ring_nf

/-- `random.randint(lo, hi)` (both endpoints included): consumes one raw
value and lands in `[lo, hi]`.  Returns the value and the next position. -/
def randint (g : RawStream) (pos lo hi : ℕ) : ℕ × ℕ :=
  (lo + g pos % (hi + 1 - lo), pos + 1)

/-- `random.uniform(a, b)`: a rational in `[a, b]`, granularity `(b-a)/10^6`. -/
def uniform (g : RawStream) (pos : ℕ) (a b : ℚ) : ℚ × ℕ :=
  (qAdd a (qDivNat (qMul (qSub b a) (natQ (g pos % 1000001))) 1000000), pos + 1)

/-- `random.random()`: a rational in `[0, 1)`. -/
def pyRandom (g : RawStream) (pos : ℕ) : ℚ × ℕ :=
  (mkRat (g pos % 1000000 : ℕ) 1000000, pos + 1)

/-- `random.choice(l)`: an element of `l` (arbitrary default on `[]`,
which never occurs in the script). -/
def choice (g : RawStream) (pos : ℕ) (l : List String) : String × ℕ :=
  (l.getD (g pos % l.length) "", pos + 1)

/-- Python's `round(x, 2)`: round to the nearest multiple of `1/100`. -/
def round2 (x : ℚ) : ℚ :=
  mkRat (qRound (qMul (natQ 100) x)) 100

theorem round2_eq (x : ℚ) : round2 x = (round (100 * x) : ℚ) / 100 := by
  unfold round2
  rw [Rat.mkRat_eq_div _ _, qRound_eq, qMul_eq, natQ_eq]
  norm_num

/-- Python's `int()` applied to a (real-valued) expression: truncation
toward zero. -/
def pyInt (x : ℚ) : ℤ :=
  if 0 ≤ x then ⌊x⌋ else ⌈x⌉

/-- First-match association-list lookup, the model of Python `dict`
reads (`d[k]` / `d.get(k, default)`); all dict literals in the script
have pairwise distinct keys, so first-match equals dict semantics. -/
def plookup [DecidableEq α] (k : α) : List (α × β) → Option β
  | [] => none
  | (a, b) :: rest => if k = a then some b else plookup k rest

/-- `MERCHANTS` (line 12). -/
def MERCHANTS : List String :=
  ["Amazon", "Walmart", "Starbucks", "McDonald\x27s", "Target", "Home Depot",
   "Best Buy", "Costco", "CVS Pharmacy", "Walgreens", "Shell", "Exxon",
   "Whole Foods", "Trader Joe\x27s", "Subway", "Chipotle", "Netflix", "Spotify",
   "Apple Store", "Microsoft Store", "Google Play", "Uber", "Lyft", "Airbnb",
   "Expedia", "Delta Airlines", "United Airlines", "American Airlines"]

/-- `CATEGORIES` (line 20). -/
def CATEGORIES : List String :=
  ["Groceries", "Restaurants", "Gas", "Shopping", "Entertainment", "Travel",
   "Utilities", "Healthcare", "Transportation", "Subscription", "Electronics",
   "Home Improvement", "Clothing", "Education", "Insurance"]

/-- `MERCHANT_CATEGORY_MAP` (line 27). -/
def MERCHANT_CATEGORY_MAP : List (String × String) :=
  [("Amazon", "Shopping"), ("Walmart", "Shopping"), ("Starbucks", "Restaurants"),
   ("McDonald\x27s", "Restaurants"), ("Target", "Shopping"),
   ("Home Depot", "Home Improvement"), ("Best Buy", "Electronics"),
   ("Costco", "Groceries"), ("CVS Pharmacy", "Healthcare"),
   ("Walgreens", "Healthcare"), ("Shell", "Gas"), ("Exxon", "Gas"),
   ("Whole Foods", "Groceries"), ("Trader Joe\x27s", "Groceries"),
   ("Subway", "Restaurants"), ("Chipotle", "Restaurants"),
   ("Netflix", "Subscription"), ("Spotify", "Subscription"),
   ("Apple Store", "Electronics"), ("Microsoft Store", "Electronics"),
   ("Google Play", "Subscription"), ("Uber", "Transportation"),
   ("Lyft", "Transportation"), ("Airbnb", "Travel"), ("Expedia", "Travel"),
   ("Delta Airlines", "Travel"), ("United Airlines", "Travel"),
   ("American Airlines", "Travel")]

/-- `LOCATIONS_USA` (line 58): the domestic list. -/
def LOCATIONS_USA : List String :=
  ["New York, USA", "Los Angeles, USA", "Chicago, USA", "Houston, USA",
   "Miami, USA", "Seattle, USA", "Boston, USA", "San Francisco, USA"]

/-- `LOCATIONS_INTERNATIONAL` (line 63): the international list (the
`"SÃ£o Paulo"` spelling reproduces the script's bytes). -/
def LOCATIONS_INTERNATIONAL : List String :=
  ["Toronto, Canada", "Vancouver, Canada", "London, UK", "Paris, France",
   "Berlin, Germany", "Tokyo, Japan", "Sydney, Australia", "Dubai, UAE",
   "Singapore", "Mexico City, Mexico", "SÃ£o Paulo, Brazil",
   "Buenos Aires, Argentina"]

/-- `LOCATIONS = LOCATIONS_USA + LOCATIONS_INTERNATIONAL` (line 69). -/
def LOCATIONS : List String :=
  LOCATIONS_USA ++ LOCATIONS_INTERNATIONAL

/-- The category amount-range table of `generate_normal_amount` (line 73);
Python int pairs. -/
def ranges : List (String × ℤ × ℤ) :=
  [("Groceries", 15, 200), ("Restaurants", 8, 150), ("Gas", 25, 80),
   ("Shopping", 20, 500), ("Entertainment", 10, 200), ("Travel", 100, 2000),
   ("Utilities", 50, 300), ("Healthcare", 20, 500), ("Transportation", 5, 100),
   ("Subscription", 5, 50), ("Electronics", 50, 2000),
   ("Home Improvement", 30, 1000), ("Clothing", 20, 400),
   ("Education", 100, 2000), ("Insurance", 50, 500)]

/-- `generate_normal_amount(category)` (line 71): uniform draw in the
category's range (default `(10, 200)`), rounded to 2 decimal places. -/
def generate_normal_amount (g : RawStream) (pos : ℕ) (category : String) : ℚ × ℕ :=
  let mm := (plookup category ranges).getD (10, 200)
  let u := uniform g pos (intQ mm.1) (intQ mm.2)
  (round2 u.1, u.2)

/-- `generate_anomalous_amount()` (line 93): uniform in `[5000, 50000]`,
rounded to 2 decimal places. -/
def generate_anomalous_amount (g : RawStream) (pos : ℕ) : ℚ × ℕ :=
  let u := uniform g pos (natQ 5000) (natQ 50000)
  (round2 u.1, u.2)

/-- One generated record.  `timestamp` is in seconds since `base_date =
datetime(2023, 1, 1)`; the other fields match the Python dict of line 236. -/
structure Transaction where
  transactionID : String
  accountID : String
  amount : ℚ
  merchant : String
  category : String
  timestamp : ℕ
  location : String
deriving DecidableEq, Repr, Inhabited

/-- The tagged union of dict shapes stored in `anomaly_plan`:
`{"type": "high_amount"}`, the two `rapid_location_change` roles (the
first one's optional `"timestamp"` key is written during synthesis), and
`repeated_small` with its shared fields. -/
inductive PlanEntry where
  | high_amount : PlanEntry
  | rapid_first (pair_id : ℕ) (timestamp : Option ℕ) : PlanEntry
  | rapid_second (pair_id : ℕ) (first_idx : ℕ) : PlanEntry
  | repeated_small (merchant location : String) (amount : ℚ)
      (base_time : ℕ) (group_index : ℕ) : PlanEntry
deriving DecidableEq, Repr

/-- `anomaly_plan`: row index to plan entry (keys pairwise distinct in
every reachable state). -/
abbrev Plan := List (ℕ × PlanEntry)

/-- `num_anomalies = int(num_rows * anomaly_percentage)` (line 101). -/
def num_anomalies (num_rows : ℕ) (anomaly_percentage : ℚ) : ℤ :=
  pyInt (qMul (natQ num_rows) anomaly_percentage)

/-- `high_amount_count = num_anomalies // 3` (line 110). -/
def high_amount_count (num_rows : ℕ) (anomaly_percentage : ℚ) : ℤ :=
  (num_anomalies num_rows anomaly_percentage).fdiv 3

/-- `rapid_location_pairs = (num_anomalies // 3) // 2` (line 111). -/
def rapid_location_pairs (num_rows : ℕ) (anomaly_percentage : ℚ) : ℤ :=
  ((num_anomalies num_rows anomaly_percentage).fdiv 3).fdiv 2

/-- `repeated_small_groups` (line 112). -/
def repeated_small_groups (num_rows : ℕ) (anomaly_percentage : ℚ) : ℤ :=
  (num_anomalies num_rows anomaly_percentage
    - high_amount_count num_rows anomaly_percentage
    - rapid_location_pairs num_rows anomaly_percentage * 2).fdiv 3

/-- The high-amount assignment loop (line 120): `n` iterations left,
guarded by `idx < len(available_indices)`. -/
def assignHigh : ℕ → List ℕ → ℕ → Plan × ℕ
  | 0, _, idx => ([], idx)
  | n + 1, avail, idx =>
    if idx < avail.length then
      let rest := assignHigh n avail (idx + 1)
      ((avail.getD idx 0, PlanEntry.high_amount) :: rest.1, rest.2)
    else
      assignHigh n avail idx

/-- The rapid-location-change pair loop (line 126): `pair_num` counts up
even over skipped iterations, mirroring `for pair_num in range(...)`. -/
def assignPairs : ℕ → ℕ → List ℕ → ℕ → Plan × ℕ
  | 0, _, _, idx => ([], idx)
  | n + 1, pairNum, avail, idx =>
    if idx + 1 < avail.length then
      let first_idx := avail.getD idx 0
      let second_idx := avail.getD (idx + 1) 0
      let rest := assignPairs n (pairNum + 1) avail (idx + 2)
      ((first_idx, PlanEntry.rapid_first pairNum none) ::
       (second_idx, PlanEntry.rapid_second pairNum first_idx) :: rest.1, rest.2)
    else
      assignPairs n (pairNum + 1) avail idx

/-- The repeated-small group loop (line 136): `group_size = 3`; for each
group one merchant, location, amount, and base time are drawn, then the
three consecutive indices receive entries with `group_index` 0, 1, 2. -/
def assignGroups (g : RawStream) : ℕ → List ℕ → ℕ → ℕ → Plan × ℕ × ℕ
  | 0, _, idx, pos => ([], idx, pos)
  | n + 1, avail, idx, pos =>
    if idx + 3 - 1 < avail.length then
      let merchant := choice g pos MERCHANTS
      let location := choice g merchant.2 LOCATIONS
      let uamt := uniform g location.2 (mkRat 99 100) (natQ 5)
      let amount := round2 uamt.1
      let d := randint g uamt.2 0 365
      let hrs := randint g d.2 0 23
      let base_time := d.1 * 86400 + hrs.1 * 3600
      let rest := assignGroups g n avail (idx + 3) hrs.2
      ((avail.getD idx 0,
          PlanEntry.repeated_small merchant.1 location.1 amount base_time 0) ::
       (avail.getD (idx + 1) 0,
          PlanEntry.repeated_small merchant.1 location.1 amount base_time 1) ::
       (avail.getD (idx + 2) 0,
          PlanEntry.repeated_small merchant.1 location.1 amount base_time 2) :: rest.1,
       rest.2)
    else
      assignGroups g n avail idx pos

/-- The whole anomaly planner (lines 101-153) applied to the already
shuffled index list `avail`. -/
def build_plan (g : RawStream) (avail : List ℕ) (num_rows : ℕ)
    (anomaly_percentage : ℚ) (pos : ℕ) : Plan × ℕ :=
  let hc := (high_amount_count num_rows anomaly_percentage).toNat
  let pc := (rapid_location_pairs num_rows anomaly_percentage).toNat
  let gc := (repeated_small_groups num_rows anomaly_percentage).toNat
  let r1 := assignHigh hc avail 0
  let r2 := assignPairs pc 0 avail r1.2
  let r3 := assignGroups g gc avail r2.2 pos
  (r1.1 ++ r2.1 ++ r3.1, r3.2.2)

/-- The in-place edit a pair's first record performs on its own plan
entry: `plan["timestamp"] = timestamp_obj` adds the timestamp key (only
`rapid_first` entries ever receive it). -/
def updEntry (ts : ℕ) : PlanEntry → PlanEntry
  | PlanEntry.rapid_first pid _ => PlanEntry.rapid_first pid (some ts)
  | other => other

/-- Writing `plan["timestamp"] = timestamp_obj` (line 189) back into the
plan dict for the first record of a pair. -/
def setPairTimestamp (plan : Plan) (i ts : ℕ) : Plan :=
  plan.map fun e => if e.1 = i then (e.1, updEntry ts e.2) else e

/-- The `base_date + timedelta(days=randint(0,365), hours=randint(0,23),
minutes=randint(0,59))` pattern (lines 169, 183, 201, 230), in seconds. -/
def draw_timestamp (g : RawStream) (pos : ℕ) : ℕ × ℕ :=
  let d := randint g pos 0 365
  let h := randint g d.2 0 23
  let m := randint g h.2 0 59
  (d.1 * 86400 + h.1 * 3600 + m.1 * 60, m.2)

/-- `str(n).zfill(k)`. -/
def zfill (k : ℕ) (s : String) : String :=
  String.mk (List.replicate (k - s.length) '0') ++ s

/-- One iteration of the synthesis loop (lines 156-244) for row `i`:
returns the record, the (possibly mutated) plan, and the next stream
position.  Note that Python evaluates the fallback argument of
`MERCHANT_CATEGORY_MAP.get(merchant, random.choice(CATEGORIES))`
eagerly, so a `choice` from `CATEGORIES` is consumed even when the
merchant is mapped. -/
def synthRow (g : RawStream) (i : ℕ) (plan : Plan) (pos : ℕ) :
    Transaction × Plan × ℕ :=
  let tid := "TXN" ++ zfill 6 (toString (i + 1))
  let acct := randint g pos 1 50
  let aid := "ACC" ++ zfill 4 (toString acct.1)
  match plookup i plan with
  | some PlanEntry.high_amount =>
    let amount := generate_anomalous_amount g acct.2
    let merchant := choice g amount.2 MERCHANTS
    let fallback := choice g merchant.2 CATEGORIES
    let category := (plookup merchant.1 MERCHANT_CATEGORY_MAP).getD fallback.1
    let location := choice g fallback.2 LOCATIONS
    let ts := draw_timestamp g location.2
    (⟨tid, aid, amount.1, merchant.1, category, ts.1, location.1⟩, plan, ts.2)
  | some (PlanEntry.rapid_first _ _) =>
    let merchant := choice g acct.2 MERCHANTS
    let fallback := choice g merchant.2 CATEGORIES
    let category := (plookup merchant.1 MERCHANT_CATEGORY_MAP).getD fallback.1
    let amount := generate_normal_amount g fallback.2 category
    let location := choice g amount.2 LOCATIONS_USA
    let ts := draw_timestamp g location.2
    (⟨tid, aid, amount.1, merchant.1, category, ts.1, location.1⟩,
     setPairTimestamp plan i ts.1, ts.2)
  | some (PlanEntry.rapid_second _ first_idx) =>
    let merchant := choice g acct.2 MERCHANTS
    let fallback := choice g merchant.2 CATEGORIES
    let category := (plookup merchant.1 MERCHANT_CATEGORY_MAP).getD fallback.1
    let amount := generate_normal_amount g fallback.2 category
    let location := choice g amount.2 LOCATIONS_INTERNATIONAL
    let first_plan := if first_idx ≠ 0 then plookup first_idx plan else none
    match first_plan with
    | some (PlanEntry.rapid_first _ (some ts1)) =>
      let mins := randint g location.2 1 5
      (⟨tid, aid, amount.1, merchant.1, category, ts1 + mins.1 * 60, location.1⟩,
       plan, mins.2)
    | _ =>
      let ts := draw_timestamp g location.2
      (⟨tid, aid, amount.1, merchant.1, category, ts.1, location.1⟩, plan, ts.2)
  | some (PlanEntry.repeated_small m loc a bt k) =>
    let category := (plookup m MERCHANT_CATEGORY_MAP).getD "Shopping"
    let step := randint g acct.2 5 20
    (⟨tid, aid, a, m, category, bt + k * step.1 * 60, loc⟩, plan, step.2)
  | none =>
    let merchant := choice g acct.2 MERCHANTS
    let fallback := choice g merchant.2 CATEGORIES
    let category := (plookup merchant.1 MERCHANT_CATEGORY_MAP).getD fallback.1
    let amount := generate_normal_amount g fallback.2 category
    let r := pyRandom g amount.2
    let location :=
      if r.1 < mkRat 7 10 then choice g r.2 LOCATIONS_USA
      else choice g r.2 LOCATIONS
    let ts := draw_timestamp g location.2
    (⟨tid, aid, amount.1, merchant.1, category, ts.1, location.1⟩, plan, ts.2)

/-- The synthesis loop folded over a list of row indices. -/
def synthFrom (g : RawStream) : List ℕ → Plan → ℕ → List Transaction × Plan × ℕ
  | [], plan, pos => ([], plan, pos)
  | i :: rest, plan, pos =>
    let r := synthRow g i plan pos
    let rs := synthFrom g rest r.2.1 r.2.2
    (r.1 :: rs.1, rs.2)

/-- The plan a run builds before synthesizing any record. -/
def runPlan (g : RawStream) (shuffle : List ℕ → List ℕ) (num_rows : ℕ)
    (anomaly_percentage : ℚ) : Plan :=
  (build_plan g (shuffle (List.range num_rows)) num_rows anomaly_percentage 0).1

/-- The stream position after the planner (groups consume draws). -/
def runPlanPos (g : RawStream) (shuffle : List ℕ → List ℕ) (num_rows : ℕ)
    (anomaly_percentage : ℚ) : ℕ :=
  (build_plan g (shuffle (List.range num_rows)) num_rows anomaly_percentage 0).2

/-- `generate_transactions(num_rows, anomaly_percentage)` (line 98): the
ordered record sequence of a run. -/
def generate_transactions (g : RawStream) (shuffle : List ℕ → List ℕ)
    (num_rows : ℕ) (anomaly_percentage : ℚ) : List Transaction :=
  (synthFrom g (List.range num_rows)
    (runPlan g shuffle num_rows anomaly_percentage)
    (runPlanPos g shuffle num_rows anomaly_percentage)).1

/-- The fractional-digit part of Python's `str()` of a float holding a
2-decimal value `n/100`: trailing zeros are dropped but at least one
digit is kept. -/
def fracStr (frac : ℕ) : String :=
  if frac = 0 then "0"
  else if frac % 10 = 0 then toString (frac / 10)
  else (if frac < 10 then "0" else "") ++ toString frac

/-- Python's `str()` of a float produced by `round(x, 2)`: shortest
decimal form, so at most two and at least one fractional digit. -/
def formatAmount (q : ℚ) : String :=
  let n := qRound (qMul (natQ 100) q)
  toString (n.fdiv 100) ++ "." ++ fracStr (n.emod 100).toNat

/-- Two-digit zero padding of the `strftime` fields. -/
def pad2 (n : ℕ) : String := zfill 2 (toString n)

/-- Month lengths from 2023-01 through 2024-12 (2024 is a leap year);
all generated timestamps fall in this span. -/
def monthLengths : List (ℕ × ℕ × ℕ) :=
  [(2023, 1, 31), (2023, 2, 28), (2023, 3, 31), (2023, 4, 30), (2023, 5, 31),
   (2023, 6, 30), (2023, 7, 31), (2023, 8, 31), (2023, 9, 30), (2023, 10, 31),
   (2023, 11, 30), (2023, 12, 31),
   (2024, 1, 31), (2024, 2, 29), (2024, 3, 31), (2024, 4, 30), (2024, 5, 31),
   (2024, 6, 30), (2024, 7, 31), (2024, 8, 31), (2024, 9, 30), (2024, 10, 31),
   (2024, 11, 30), (2024, 12, 31)]

/-- Walk the month table to convert a day offset from 2023-01-01 into a
calendar date. -/
def dateWalk : ℕ → List (ℕ × ℕ × ℕ) → ℕ × ℕ × ℕ
  | d, [] => (1970, 1, d + 1)
  | d, (y, mo, len) :: rest => if d < len then (y, mo, d + 1) else dateWalk (d - len) rest

/-- `timestamp_obj.strftime("%Y-%m-%d %H:%M:%S")` for a seconds-since-
`base_date` value. -/
def formatTimestamp (ts : ℕ) : String :=
  let ymd := dateWalk (ts / 86400) monthLengths
  let rem := ts % 86400
  toString ymd.1 ++ "-" ++ pad2 ymd.2.1 ++ "-" ++ pad2 ymd.2.2 ++ " " ++
    pad2 (rem / 3600) ++ ":" ++ pad2 (rem % 3600 / 60) ++ ":" ++ pad2 (rem % 60)

/-- `csv` module field quoting (QUOTE_MINIMAL): quote when the field
contains the delimiter, the quote char, or a line break. -/
def csvField (s : String) : String :=
  if s.any (fun c => c == ',' || c == '"' || c == '\n' || c == '\r') then
    "\"" ++ s.replace "\"" "\"\"" ++ "\""
  else s

/-- One CSV data row in the fixed field order of line 250. -/
def csvRow (t : Transaction) : String :=
  String.intercalate ","
    ([t.transactionID, t.accountID, formatAmount t.amount, t.merchant,
      t.category, formatTimestamp t.timestamp, t.location].map csvField)

/-- The header line written by `writer.writeheader()` (line 254). -/
def csvHeader : String :=
  "TransactionID,AccountID,Amount,Merchant,Category,Timestamp,Location\r\n"

/-- `write_csv(transactions)` (line 248): the full byte content of the
output file (the csv module terminates every line with CRLF). -/
def write_csv (transactions : List Transaction) : String :=
  csvHeader ++ String.join (transactions.map fun t => csvRow t ++ "\r\n")

/-! ## Basic facts about the random primitives -/

theorem randint_le {g : RawStream} {pos lo hi : ℕ} (h : lo ≤ hi) :
    lo ≤ (randint g pos lo hi).1 ∧ (randint g pos lo hi).1 ≤ hi := by
  unfold randint
  have hlt : g pos % (hi + 1 - lo) < hi + 1 - lo :=
    Nat.mod_lt _ (by omega)
  omega

theorem round_mono2 {x y : ℚ} (h : x ≤ y) : round x ≤ round y := by
  rw [round_eq, round_eq]
  exact Int.floor_le_floor (by linarith)

theorem uniform_le {g : RawStream} {pos : ℕ} {a b : ℚ} (h : a ≤ b) :
    a ≤ (uniform g pos a b).1 ∧ (uniform g pos a b).1 ≤ b := by
  unfold uniform
  simp only [qAdd_eq, qDivNat_eq, qMul_eq, qSub_eq, natQ_eq, Nat.cast_ofNat]
  have h0 : (0 : ℚ) ≤ ((g pos % 1000001 : ℕ) : ℚ) := Nat.cast_nonneg _
  have h1 : ((g pos % 1000001 : ℕ) : ℚ) ≤ 1000000 := by
    have := @Nat.mod_lt (g pos) 1000001 (by omega)
    exact_mod_cast Nat.le_of_lt_succ this
  have h2 : 0 ≤ (b - a) * ((g pos % 1000001 : ℕ) : ℚ) / 1000000 :=
    div_nonneg (mul_nonneg (by linarith) h0) (by norm_num)
  have h3 : (b - a) * ((g pos % 1000001 : ℕ) : ℚ) / 1000000 ≤ b - a := by
    rw [div_le_iff₀ (by norm_num)]
    nlinarith
  exact ⟨by linarith, by linarith⟩

theorem uniform_le2 {g : RawStream} {pos : ℕ} {a b a2 b2 : ℚ}
    (ha : a = a2) (hb : b = b2) (h : a2 ≤ b2) :
    a2 ≤ (uniform g pos a b).1 ∧ (uniform g pos a b).1 ≤ b2 := by
  subst ha
  subst hb
  exact uniform_le h

theorem choice_mem {g : RawStream} {pos : ℕ} {l : List String} (h : l ≠ []) :
    (choice g pos l).1 ∈ l := by
  unfold choice
  have hlen : 0 < l.length := List.length_pos.mpr h
  have : g pos % l.length < l.length := Nat.mod_lt _ hlen
  rw [List.getD_eq_getElem _ _ this]
  exact List.getElem_mem _

theorem le_round2 {z : ℤ} {x : ℚ} (h : (z : ℚ) ≤ x) : (z : ℚ) ≤ round2 x := by
  rw [round2_eq]
  rw [le_div_iff₀ (by norm_num)]
  have : round ((z * 100 : ℤ) : ℚ) ≤ round (100 * x) := by
    apply round_mono2
    push_cast
    linarith
  rw [round_intCast] at this
  calc (z : ℚ) * 100 = ((z * 100 : ℤ) : ℚ) := by push_cast; ring
    _ ≤ (round (100 * x) : ℚ) := by exact_mod_cast this

theorem round2_le {z : ℤ} {x : ℚ} (h : x ≤ (z : ℚ)) : round2 x ≤ (z : ℚ) := by
  rw [round2_eq]
  rw [div_le_iff₀ (by norm_num)]
  have : round (100 * x) ≤ round ((z * 100 : ℤ) : ℚ) := by
    apply round_mono2
    push_cast
    linarith
  rw [round_intCast] at this
  calc (round (100 * x) : ℚ) ≤ ((z * 100 : ℤ) : ℚ) := by exact_mod_cast this
    _ = (z : ℚ) * 100 := by push_cast; ring

theorem round2_cent (x : ℚ) : ∃ n : ℤ, round2 x = (n : ℚ) / 100 :=
  ⟨round (100 * x), round2_eq x⟩

/-! ## Association-list and plan-mutation facts -/

theorem plookup_mem [DecidableEq α] {k : α} {v : β} :
    ∀ {l : List (α × β)}, plookup k l = some v → (k, v) ∈ l := by
  intro l
  induction l with
  | nil => intro h; simp [plookup] at h
  | cons e rest ih =>
    intro h
    rw [show e = (e.1, e.2) from rfl] at h ⊢
    rw [plookup] at h
    by_cases hk : k = e.1
    · simp [hk] at h
      simp [hk, ← h]
    · simp [hk] at h
      exact List.mem_cons_of_mem _ (ih h)

theorem setPairTimestamp_keys (plan : Plan) (i ts : ℕ) :
    (setPairTimestamp plan i ts).map Prod.fst = plan.map Prod.fst := by
  unfold setPairTimestamp
  induction plan with
  | nil => rfl
  | cons e rest ih =>
    obtain ⟨a, b⟩ := e
    by_cases hk : a = i <;> simp only [List.map_cons, hk, if_pos, if_neg,
      ite_true, ite_false] at ih ⊢ <;> simp [ih]

theorem plookup_setPairTimestamp (plan : Plan) (i ts j : ℕ) :
    plookup j (setPairTimestamp plan i ts) =
      if j = i then (plookup i plan).map (updEntry ts) else plookup j plan := by
  induction plan with
  | nil => simp [setPairTimestamp, plookup]
  | cons e rest ih =>
    obtain ⟨a, b⟩ := e
    simp only [setPairTimestamp, List.map_cons] at ih ⊢
    by_cases hai : a = i
    · subst hai
      rw [if_pos rfl]
      by_cases hja : j = a
      · subst hja
        simp [plookup]
      · simp [plookup, hja, ih]
    · have hia : ¬i = a := fun h => hai h.symm
      rw [if_neg hai]
      by_cases hja : j = a
      · subst hja
        simp [plookup, hai, hia]
      · simp [plookup, hja, hia, ih]

/-! ## Per-branch facts about one synthesis step -/

theorem draw_timestamp_spec (g : RawStream) (pos : ℕ) :
    (draw_timestamp g pos).1 % 60 = 0 ∧
      (draw_timestamp g pos).1 ≤ 365 * 86400 + 23 * 3600 + 59 * 60 := by
  unfold draw_timestamp
  have hd := @randint_le g pos 0 365 (by omega)
  have hh := @randint_le g (randint g pos 0 365).2 0 23 (by omega)
  have hm := @randint_le g (randint g (randint g pos 0 365).2 0 23).2 0 59
    (by omega)
  constructor
  · simp only
    omega
  · simp only
    omega

theorem plookup_synthRow_ne (g : RawStream) (i : ℕ) (plan : Plan) (pos : ℕ)
    {j : ℕ} (h : j ≠ i) :
    plookup j (synthRow g i plan pos).2.1 = plookup j plan := by
  unfold synthRow
  rcases he : plookup i plan with _ | e
  · simp [he]
  · cases e with
    | high_amount => simp [he]
    | rapid_first pid o =>
      simp [he, plookup_setPairTimestamp, h]
    | rapid_second pid fi =>
      simp only [he]
      split <;> simp
    | repeated_small m loc a bt k => simp [he]

theorem synthRow_keys (g : RawStream) (i : ℕ) (plan : Plan) (pos : ℕ) :
    (synthRow g i plan pos).2.1.map Prod.fst = plan.map Prod.fst := by
  unfold synthRow
  rcases he : plookup i plan with _ | e
  · simp [he]
  · cases e with
    | high_amount => simp [he]
    | rapid_first pid o => simp [he, setPairTimestamp_keys]
    | rapid_second pid fi =>
      simp only [he]
      split <;> simp
    | repeated_small m loc a bt k => simp [he]

theorem synthRow_first_spec (g : RawStream) (i : ℕ) (plan : Plan) (pos : ℕ)
    {pid : ℕ} {o : Option ℕ}
    (h : plookup i plan = some (PlanEntry.rapid_first pid o)) :
    (synthRow g i plan pos).1.location ∈ LOCATIONS_USA ∧
      (synthRow g i plan pos).2.1 =
        setPairTimestamp plan i (synthRow g i plan pos).1.timestamp ∧
      (synthRow g i plan pos).1.timestamp % 60 = 0 := by
  unfold synthRow
  simp only [h]
  exact ⟨choice_mem (by decide), by trivial, (draw_timestamp_spec g _).1⟩

theorem synthRow_second_spec (g : RawStream) (j : ℕ) (plan : Plan) (pos : ℕ)
    {pid q i ts1 : ℕ}
    (h : plookup j plan = some (PlanEntry.rapid_second pid i)) (hi : i ≠ 0)
    (hf : plookup i plan = some (PlanEntry.rapid_first q (some ts1))) :
    (synthRow g j plan pos).1.location ∈ LOCATIONS_INTERNATIONAL ∧
      (synthRow g j plan pos).2.1 = plan ∧
      ∃ m, 1 ≤ m ∧ m ≤ 5 ∧
        (synthRow g j plan pos).1.timestamp = ts1 + m * 60 := by
  unfold synthRow
  simp only [h, hi, ne_eq, not_false_eq_true, if_true, hf]
  have hm := @randint_le g
    ((choice g (generate_normal_amount g
      (choice g (choice g (randint g pos 1 50).2 MERCHANTS).2 CATEGORIES).2
      ((plookup (choice g (randint g pos 1 50).2 MERCHANTS).1
        MERCHANT_CATEGORY_MAP).getD
        (choice g (choice g (randint g pos 1 50).2 MERCHANTS).2 CATEGORIES).1)).2
      LOCATIONS_INTERNATIONAL).2) 1 5 (by omega)
  exact ⟨choice_mem (by decide), by trivial, _, hm.1, hm.2, by trivial⟩

theorem synthRow_repeated_spec (g : RawStream) (i : ℕ) (plan : Plan) (pos : ℕ)
    {m loc : String} {a : ℚ} {bt k : ℕ}
    (h : plookup i plan = some (PlanEntry.repeated_small m loc a bt k)) :
    (synthRow g i plan pos).1.merchant = m ∧
      (synthRow g i plan pos).1.location = loc ∧
      (synthRow g i plan pos).1.amount = a ∧
      (synthRow g i plan pos).2.1 = plan ∧
      ∃ step, 5 ≤ step ∧ step ≤ 20 ∧
        (synthRow g i plan pos).1.timestamp = bt + k * step * 60 := by
  unfold synthRow
  simp only [h]
  have hs := @randint_le g (randint g pos 1 50).2 5 20 (by omega)
  exact ⟨by trivial, by trivial, by trivial, by trivial, _, hs.1, hs.2, by trivial⟩

theorem synthRow_normal_spec (g : RawStream) (i : ℕ) (plan : Plan) (pos : ℕ)
    (h : plookup i plan = none) :
    (synthRow g i plan pos).2.1 = plan ∧
      (synthRow g i plan pos).1.timestamp % 60 = 0 ∧
      (synthRow g i plan pos).1.timestamp ≤ 365 * 86400 + 23 * 3600 + 59 * 60 := by
  unfold synthRow
  simp only [h]
  exact ⟨by trivial, (draw_timestamp_spec g _).1, (draw_timestamp_spec g _).2⟩

/-! ## The synthesis fold -/

theorem synthFrom_length (g : RawStream) :
    ∀ (rows : List ℕ) (plan : Plan) (pos : ℕ),
      (synthFrom g rows plan pos).1.length = rows.length := by
  intro rows
  induction rows with
  | nil => intro plan pos; rfl
  | cons i rest ih => intro plan pos; simp [synthFrom, ih]

theorem synthFrom_append (g : RawStream) (l1 l2 : List ℕ) :
    ∀ (plan : Plan) (pos : ℕ),
      synthFrom g (l1 ++ l2) plan pos =
        ((synthFrom g l1 plan pos).1 ++
           (synthFrom g l2 (synthFrom g l1 plan pos).2.1
             (synthFrom g l1 plan pos).2.2).1,
         (synthFrom g l2 (synthFrom g l1 plan pos).2.1
           (synthFrom g l1 plan pos).2.2).2) := by
  induction l1 with
  | nil => intro plan pos; simp [synthFrom]
  | cons i rest ih => intro plan pos; simp [synthFrom, ih]

theorem plookup_synthFrom_notMem (g : RawStream) :
    ∀ (rows : List ℕ) (plan : Plan) (pos : ℕ) {j : ℕ}, j ∉ rows →
      plookup j (synthFrom g rows plan pos).2.1 = plookup j plan := by
  intro rows
  induction rows with
  | nil => intro plan pos j _; rfl
  | cons i rest ih =>
    intro plan pos j hj
    have hji : j ≠ i := fun h => hj (h ▸ List.mem_cons_self i rest)
    have hjr : j ∉ rest := fun h => hj (List.mem_cons_of_mem i h)
    simp only [synthFrom]
    rw [ih _ _ hjr, plookup_synthRow_ne g i plan pos hji]

/-! ## Planner phase characterizations -/

theorem assignHigh_fst (avail : List ℕ) :
    ∀ (n idx : ℕ),
      (assignHigh n avail idx).1.map Prod.fst = (avail.drop idx).take n := by
  intro n
  induction n with
  | zero => intro idx; simp [assignHigh]
  | succ n ih =>
    intro idx
    by_cases h : idx < avail.length
    · rw [assignHigh, if_pos h]
      simp only [List.map_cons]
      rw [ih (idx + 1), List.drop_eq_getElem_cons h, List.take_succ_cons,
        List.getD_eq_getElem _ _ h]
    · rw [assignHigh, if_neg h, ih idx]
      rw [List.drop_eq_nil_of_le (by omega)]
      simp

theorem assignHigh_idx (avail : List ℕ) :
    ∀ (n idx : ℕ),
      (assignHigh n avail idx).2 = idx + min n (avail.length - idx) := by
  intro n
  induction n with
  | zero => intro idx; simp [assignHigh]
  | succ n ih =>
    intro idx
    by_cases h : idx < avail.length
    · rw [assignHigh, if_pos h]
      simp only
      rw [ih (idx + 1)]
      omega
    · rw [assignHigh, if_neg h, ih idx]
      omega

theorem assignPairs_fst (avail : List ℕ) :
    ∀ (n pairNum idx : ℕ),
      (assignPairs n pairNum avail idx).1.map Prod.fst =
        (avail.drop idx).take (2 * min n ((avail.length - idx) / 2)) := by
  intro n
  induction n with
  | zero => intro pairNum idx; simp [assignPairs]
  | succ n ih =>
    intro pairNum idx
    by_cases h : idx + 1 < avail.length
    · rw [assignPairs, if_pos h]
      simp only [List.map_cons]
      rw [ih (pairNum + 1) (idx + 2)]
      have h0 : idx < avail.length := by omega
      have h1 : 2 * min (n + 1) ((avail.length - idx) / 2) =
          (2 * min n ((avail.length - (idx + 2)) / 2) + 1) + 1 := by omega
      rw [h1, List.drop_eq_getElem_cons h0, List.take_succ_cons]
      rw [List.drop_eq_getElem_cons h, List.take_succ_cons]
      rw [List.getD_eq_getElem _ _ h0, List.getD_eq_getElem _ _ h]
    · rw [assignPairs, if_neg h, ih (pairNum + 1) idx]
      have h1 : 2 * min n ((avail.length - idx) / 2) =
          2 * min (n + 1) ((avail.length - idx) / 2) := by omega
      rw [h1]

theorem assignPairs_idx (avail : List ℕ) :
    ∀ (n pairNum idx : ℕ),
      (assignPairs n pairNum avail idx).2 =
        idx + 2 * min n ((avail.length - idx) / 2) := by
  intro n
  induction n with
  | zero => intro pairNum idx; simp [assignPairs]
  | succ n ih =>
    intro pairNum idx
    by_cases h : idx + 1 < avail.length
    · rw [assignPairs, if_pos h]
      simp only
      rw [ih (pairNum + 1) (idx + 2)]
      omega
    · rw [assignPairs, if_neg h, ih (pairNum + 1) idx]
      omega

theorem assignGroups_fst (g : RawStream) (avail : List ℕ) :
    ∀ (n idx pos : ℕ),
      (assignGroups g n avail idx pos).1.map Prod.fst =
        (avail.drop idx).take (3 * min n ((avail.length - idx) / 3)) := by
  intro n
  induction n with
  | zero => intro idx pos; simp [assignGroups]
  | succ n ih =>
    intro idx pos
    by_cases h : idx + 3 - 1 < avail.length
    · rw [assignGroups, if_pos h]
      simp only [List.map_cons]
      rw [ih (idx + 3)]
      have h0 : idx < avail.length := by omega
      have h1 : idx + 1 < avail.length := by omega
      have h2 : idx + 2 < avail.length := by omega
      have h3 : 3 * min (n + 1) ((avail.length - idx) / 3) =
          ((3 * min n ((avail.length - (idx + 3)) / 3) + 1) + 1) + 1 := by omega
      rw [h3, List.drop_eq_getElem_cons h0, List.take_succ_cons,
        List.drop_eq_getElem_cons h1, List.take_succ_cons,
        List.drop_eq_getElem_cons h2, List.take_succ_cons,
        List.getD_eq_getElem _ _ h0, List.getD_eq_getElem _ _ h1,
        List.getD_eq_getElem _ _ h2]
    · rw [assignGroups, if_neg h, ih idx]
      have h1 : 3 * min n ((avail.length - idx) / 3) =
          3 * min (n + 1) ((avail.length - idx) / 3) := by omega
      rw [h1]

theorem assignGroups_idx (g : RawStream) (avail : List ℕ) :
    ∀ (n idx pos : ℕ),
      (assignGroups g n avail idx pos).2.1 =
        idx + 3 * min n ((avail.length - idx) / 3) := by
  intro n
  induction n with
  | zero => intro idx pos; simp [assignGroups]
  | succ n ih =>
    intro idx pos
    by_cases h : idx + 3 - 1 < avail.length
    · rw [assignGroups, if_pos h]
      simp only
      rw [ih (idx + 3)]
      omega
    · rw [assignGroups, if_neg h, ih idx]
      omega

theorem assignHigh_snd (avail : List ℕ) :
    ∀ (n idx : ℕ) (e : ℕ × PlanEntry), e ∈ (assignHigh n avail idx).1 →
      e.2 = PlanEntry.high_amount := by
  intro n
  induction n with
  | zero => intro idx e he; simp [assignHigh] at he
  | succ n ih =>
    intro idx e he
    by_cases h : idx < avail.length
    · rw [assignHigh, if_pos h] at he
      rcases List.mem_cons.mp he with h1 | h1
      · rw [h1]
      · exact ih (idx + 1) e h1
    · rw [assignHigh, if_neg h] at he
      exact ih idx e he

theorem assignPairs_snd (avail : List ℕ) :
    ∀ (n pairNum idx : ℕ) (e : ℕ × PlanEntry),
      e ∈ (assignPairs n pairNum avail idx).1 →
        (∃ p, e.2 = PlanEntry.rapid_first p none) ∨
        (∃ p f, e.2 = PlanEntry.rapid_second p f) := by
  intro n
  induction n with
  | zero => intro pairNum idx e he; simp [assignPairs] at he
  | succ n ih =>
    intro pairNum idx e he
    by_cases h : idx + 1 < avail.length
    · rw [assignPairs, if_pos h] at he
      rcases List.mem_cons.mp he with h1 | h1
      · exact Or.inl ⟨pairNum, by rw [h1]⟩
      · rcases List.mem_cons.mp h1 with h2 | h2
        · exact Or.inr ⟨pairNum, avail.getD idx 0, by rw [h2]⟩
        · exact ih (pairNum + 1) (idx + 2) e h2
    · rw [assignPairs, if_neg h] at he
      exact ih (pairNum + 1) idx e he

theorem assignGroups_snd (g : RawStream) (avail : List ℕ) :
    ∀ (n idx pos : ℕ) (e : ℕ × PlanEntry),
      e ∈ (assignGroups g n avail idx pos).1 →
        ∃ m loc a bt k, e.2 = PlanEntry.repeated_small m loc a bt k ∧
          k < 3 ∧ bt % 60 = 0 ∧ ∃ z : ℤ, a = (z : ℚ) / 100 := by
  intro n
  induction n with
  | zero => intro idx pos e he; simp [assignGroups] at he
  | succ n ih =>
    intro idx pos e he
    by_cases h : idx + 3 - 1 < avail.length
    · rw [assignGroups, if_pos h] at he
      have hbt : ((randint g (uniform g (choice g (choice g pos
          MERCHANTS).2 LOCATIONS).2 (mkRat 99 100) (natQ 5)).2 0 365).1 * 86400 +
          (randint g (randint g (uniform g (choice g (choice g pos
          MERCHANTS).2 LOCATIONS).2 (mkRat 99 100) (natQ 5)).2 0 365).2 0 23).1
          * 3600) % 60 = 0 := by omega
      have hcent := round2_cent (uniform g (choice g (choice g pos
        MERCHANTS).2 LOCATIONS).2 (mkRat 99 100) (natQ 5)).1
      rcases List.mem_cons.mp he with h1 | h1
      · exact ⟨_, _, _, _, 0, by rw [h1], by omega, hbt, hcent⟩
      · rcases List.mem_cons.mp h1 with h2 | h2
        · exact ⟨_, _, _, _, 1, by rw [h2], by omega, hbt, hcent⟩
        · rcases List.mem_cons.mp h2 with h3 | h3
          · exact ⟨_, _, _, _, 2, by rw [h3], by omega, hbt, hcent⟩
          · exact ih (idx + 3) _ e h3
    · rw [assignGroups, if_neg h] at he
      exact ih idx pos e he

/-- The number of leading shuffled indices the three planner phases
consume for a list of length `len` and slot counts `hc`, `pc`, `gc`. -/
def planEnd (len hc pc gc : ℕ) : ℕ :=
  let i1 := min hc len
  let i2 := i1 + 2 * min pc ((len - i1) / 2)
  i2 + 3 * min gc ((len - i2) / 3)

theorem build_plan_keys (g : RawStream) (avail : List ℕ) (num_rows : ℕ)
    (anomaly_percentage : ℚ) (pos : ℕ) :
    (build_plan g avail num_rows anomaly_percentage pos).1.map Prod.fst =
      avail.take (planEnd avail.length
        (high_amount_count num_rows anomaly_percentage).toNat
        (rapid_location_pairs num_rows anomaly_percentage).toNat
        (repeated_small_groups num_rows anomaly_percentage).toNat) := by
  unfold build_plan planEnd
  simp only [List.map_append]
  rw [assignHigh_fst, assignPairs_fst, assignGroups_fst, assignHigh_idx,
    assignPairs_idx]
  simp only [List.drop_zero, Nat.zero_add, Nat.sub_zero]
  have h1 : avail.take ((high_amount_count num_rows anomaly_percentage).toNat) =
      avail.take (min (high_amount_count num_rows anomaly_percentage).toNat
        avail.length) := by
    rw [List.take_eq_take]
    omega
  rw [h1, ← List.take_add, ← List.take_add]

theorem build_plan_keys_nodup (g : RawStream) (avail : List ℕ)
    (num_rows : ℕ) (anomaly_percentage : ℚ) (pos : ℕ) (h : avail.Nodup) :
    ((build_plan g avail num_rows anomaly_percentage pos).1.map Prod.fst).Nodup := by
  rw [build_plan_keys]
  exact h.sublist (List.take_sublist _ _)

theorem build_plan_keys_mem (g : RawStream) (avail : List ℕ) (num_rows : ℕ)
    (anomaly_percentage : ℚ) (pos : ℕ) {k : ℕ}
    (h : k ∈ (build_plan g avail num_rows anomaly_percentage pos).1.map Prod.fst) :
    k ∈ avail := by
  rw [build_plan_keys] at h
  exact (List.take_sublist _ _).mem h

theorem build_plan_repeated_shape (g : RawStream) (avail : List ℕ)
    (num_rows : ℕ) (anomaly_percentage : ℚ) (pos : ℕ)
    {i : ℕ} {m loc : String} {a : ℚ} {bt k : ℕ}
    (h : plookup i (build_plan g avail num_rows anomaly_percentage pos).1 =
      some (PlanEntry.repeated_small m loc a bt k)) :
    k < 3 ∧ bt % 60 = 0 ∧ ∃ z : ℤ, a = (z : ℚ) / 100 := by
  have hmem := plookup_mem h
  unfold build_plan at hmem
  simp only [List.mem_append] at hmem
  rcases hmem with (hm | hm) | hm
  · have := assignHigh_snd avail _ _ _ hm
    simp at this
  · rcases assignPairs_snd avail _ _ _ _ hm with ⟨p, hp⟩ | ⟨p, f, hp⟩ <;> simp at hp
  · obtain ⟨m2, l2, a2, bt2, k2, he, hk, hbt, hz⟩ := assignGroups_snd g avail _ _ _ _ hm
    cases he
    exact ⟨hk, hbt, hz⟩

/-! ## Run-wide invariants threaded through the plan -/

/-- Invariant of a single plan entry: any pair timestamp already written
back is a whole minute, and a group's base time is a whole minute and its
amount a whole number of cents. -/
def entryInv : PlanEntry → Prop
  | PlanEntry.rapid_first _ (some ts) => ts % 60 = 0
  | PlanEntry.repeated_small _ _ a bt _ =>
      bt % 60 = 0 ∧ ∃ z : ℤ, a = (z : ℚ) / 100
  | _ => True

/-- Invariant of the whole plan. -/
def PlanInv (plan : Plan) : Prop := ∀ e ∈ plan, entryInv e.2

theorem setPairTimestamp_inv {plan : Plan} {i ts : ℕ} (h : PlanInv plan)
    (hts : ts % 60 = 0) : PlanInv (setPairTimestamp plan i ts) := by
  intro e he
  unfold setPairTimestamp at he
  rcases List.mem_map.mp he with ⟨e0, he0, heq⟩
  by_cases hk : e0.1 = i
  · rw [if_pos hk] at heq
    rw [← heq]
    cases h2 : e0.2 with
    | rapid_first pid o => simp only [updEntry, h2, entryInv]; exact hts
    | high_amount => simp only [updEntry, h2]; exact h2 ▸ h e0 he0
    | rapid_second p f => simp only [updEntry, h2]; exact h2 ▸ h e0 he0
    | repeated_small m l a bt k => simp only [updEntry, h2]; exact h2 ▸ h e0 he0
  · rw [if_neg hk] at heq
    rw [← heq]
    exact h e0 he0

theorem build_plan_inv (g : RawStream) (avail : List ℕ) (num_rows : ℕ)
    (anomaly_percentage : ℚ) (pos : ℕ) :
    PlanInv (build_plan g avail num_rows anomaly_percentage pos).1 := by
  intro e he
  unfold build_plan at he
  simp only [List.mem_append] at he
  rcases he with (hm | hm) | hm
  · rw [assignHigh_snd avail _ _ _ hm]
    trivial
  · rcases assignPairs_snd avail _ _ _ _ hm with ⟨p, hp⟩ | ⟨p, f, hp⟩ <;>
      rw [hp] <;> trivial
  · obtain ⟨m, l, a, bt, k, he2, _, hbt, hz⟩ := assignGroups_snd g avail _ _ _ _ hm
    rw [he2]
    exact ⟨hbt, hz⟩

theorem synthRow_inv (g : RawStream) (i : ℕ) (plan : Plan) (pos : ℕ)
    (h : PlanInv plan) :
    (synthRow g i plan pos).1.timestamp % 60 = 0 ∧
      (∃ z : ℤ, (synthRow g i plan pos).1.amount = (z : ℚ) / 100) ∧
      PlanInv (synthRow g i plan pos).2.1 := by
  rcases he : plookup i plan with _ | pe
  · have hs := synthRow_normal_spec g i plan pos he
    refine ⟨hs.2.1, ?_, by rw [hs.1]; exact h⟩
    unfold synthRow
    simp only [he, generate_normal_amount]
    exact round2_cent _
  · cases pe with
    | high_amount =>
      unfold synthRow
      simp only [he, generate_anomalous_amount]
      exact ⟨(draw_timestamp_spec g _).1, round2_cent _, h⟩
    | rapid_first pid o =>
      have hs := synthRow_first_spec g i plan pos he
      refine ⟨hs.2.2, ?_, hs.2.1 ▸ setPairTimestamp_inv h hs.2.2⟩
      unfold synthRow
      simp only [he, generate_normal_amount]
      exact round2_cent _
    | rapid_second pid fi =>
      unfold synthRow
      simp only [he, generate_normal_amount]
      rcases hq : (if fi ≠ 0 then plookup fi plan else none) with _ | fe
      · simp only [hq]
        exact ⟨(draw_timestamp_spec g _).1, round2_cent _, h⟩
      · cases fe with
        | rapid_first q o2 =>
          cases o2 with
          | none =>
            simp only [hq]
            exact ⟨(draw_timestamp_spec g _).1, round2_cent _, h⟩
          | some ts1 =>
            simp only [hq]
            have hfi : plookup fi plan =
                some (PlanEntry.rapid_first q (some ts1)) := by
              by_cases hf0 : fi ≠ 0
              · rwa [if_pos hf0] at hq
              · rw [if_neg hf0] at hq; exact absurd hq (by simp)
            have hts1 : ts1 % 60 = 0 := h _ (plookup_mem hfi)
            refine ⟨?_, round2_cent _, h⟩
            omega
        | high_amount =>
          simp only [hq]
          exact ⟨(draw_timestamp_spec g _).1, round2_cent _, h⟩
        | rapid_second q f2 =>
          simp only [hq]
          exact ⟨(draw_timestamp_spec g _).1, round2_cent _, h⟩
        | repeated_small m l a bt k =>
          simp only [hq]
          exact ⟨(draw_timestamp_spec g _).1, round2_cent _, h⟩
    | repeated_small m loc a bt k =>
      have hi := h _ (plookup_mem he)
      unfold entryInv at hi
      have hs := synthRow_repeated_spec g i plan pos he
      obtain ⟨step, h5, h20, hts⟩ := hs.2.2.2.2
      refine ⟨?_, ?_, by rw [hs.2.2.2.1]; exact h⟩
      · rw [hts]
        omega
      · rw [hs.2.2.1]
        exact hi.2

theorem synthFrom_inv (g : RawStream) :
    ∀ (rows : List ℕ) (plan : Plan) (pos : ℕ), PlanInv plan →
      (∀ t ∈ (synthFrom g rows plan pos).1,
        t.timestamp % 60 = 0 ∧ ∃ z : ℤ, t.amount = (z : ℚ) / 100) ∧
      PlanInv (synthFrom g rows plan pos).2.1 := by
  intro rows
  induction rows with
  | nil => intro plan pos h; exact ⟨by simp [synthFrom], h⟩
  | cons i rest ih =>
    intro plan pos h
    have hrow := synthRow_inv g i plan pos h
    have hrest := ih (synthRow g i plan pos).2.1 (synthRow g i plan pos).2.2
      hrow.2.2
    refine ⟨?_, hrest.2⟩
    intro t ht
    simp only [synthFrom, List.mem_cons] at ht
    rcases ht with ht | ht
    · exact ht ▸ ⟨hrow.1, hrow.2.1⟩
    · exact hrest.1 t ht

/-! ## Claim theorems -/

theorem ranges_bound : ∀ p ∈ ranges, p.2.1 ≤ p.2.2 ∧ p.2.2 ≤ 2000 := by decide

/-- C7: every amount produced by `generate_normal_amount` lies in the
category's configured range (default `(10, 200)` when the category is
absent from the table), hence never exceeds 2000 and stays strictly
below the anomalous floor of 5000, while every
`generate_anomalous_amount` value lies in `[5000, 50000]`; the two
amount populations are disjoint. -/
theorem C7_amount_ranges (g : RawStream) (pos : ℕ) (category : String) :
    ((((plookup category ranges).getD (10, 200)).1 : ℚ) ≤
        (generate_normal_amount g pos category).1 ∧
      (generate_normal_amount g pos category).1 ≤
        (((plookup category ranges).getD (10, 200)).2 : ℚ) ∧
      (generate_normal_amount g pos category).1 ≤ 2000) ∧
    (∀ pos2 : ℕ, 5000 ≤ (generate_anomalous_amount g pos2).1 ∧
      (generate_anomalous_amount g pos2).1 ≤ 50000) ∧
    (∀ pos2 : ℕ,
      (generate_normal_amount g pos category).1 <
        (generate_anomalous_amount g pos2).1) := by
  have hmm : (((plookup category ranges).getD (10, 200)).1 ≤
      ((plookup category ranges).getD (10, 200)).2) ∧
      ((plookup category ranges).getD (10, 200)).2 ≤ 2000 := by
    rcases h : plookup category ranges with _ | v
    · simp
    · simpa using ranges_bound _ (plookup_mem h)
  have hu := @uniform_le2 g pos _ _ _ _
    (intQ_eq ((plookup category ranges).getD (10, 200)).1)
    (intQ_eq ((plookup category ranges).getD (10, 200)).2)
    (by exact_mod_cast hmm.1)
  have hlow : ((((plookup category ranges).getD (10, 200)).1 : ℤ) : ℚ) ≤
      (generate_normal_amount g pos category).1 := le_round2 hu.1
  have hhigh : (generate_normal_amount g pos category).1 ≤
      ((((plookup category ranges).getD (10, 200)).2 : ℤ) : ℚ) :=
    round2_le hu.2
  have h2000 : (generate_normal_amount g pos category).1 ≤ 2000 := by
    have : ((((plookup category ranges).getD (10, 200)).2 : ℤ) : ℚ) ≤
        ((2000 : ℤ) : ℚ) := by exact_mod_cast hmm.2
    calc (generate_normal_amount g pos category).1 ≤ _ := hhigh
      _ ≤ ((2000 : ℤ) : ℚ) := this
      _ = 2000 := by norm_num
  have hanom : ∀ pos2 : ℕ, 5000 ≤ (generate_anomalous_amount g pos2).1 ∧
      (generate_anomalous_amount g pos2).1 ≤ 50000 := by
    intro pos2
    have hu2 := @uniform_le2 g pos2 (natQ 5000) (natQ 50000)
      (((5000 : ℤ) : ℚ)) (((50000 : ℤ) : ℚ))
      (by rw [natQ_eq]; norm_num) (by rw [natQ_eq]; norm_num) (by norm_num)
    constructor
    · have h5 : ((5000 : ℤ) : ℚ) ≤ (generate_anomalous_amount g pos2).1 :=
        le_round2 hu2.1
      calc (5000 : ℚ) = ((5000 : ℤ) : ℚ) := by norm_num
        _ ≤ _ := h5
    · have h5 : (generate_anomalous_amount g pos2).1 ≤ ((50000 : ℤ) : ℚ) :=
        round2_le hu2.2
      calc (generate_anomalous_amount g pos2).1 ≤ ((50000 : ℤ) : ℚ) := h5
        _ = 50000 := by norm_num
  refine ⟨⟨hlow, hhigh, h2000⟩, hanom, fun pos2 => ?_⟩
  have := (hanom pos2).1
  linarith

/-- C10: every record of every run, whatever the row kind, carries a
timestamp whose seconds component is zero: all timestamps are sums of
whole-day, whole-hour, and whole-minute offsets. -/
theorem C10_whole_minute_timestamps (g : RawStream)
    (shuffle : List ℕ → List ℕ) (num_rows : ℕ) (anomaly_percentage : ℚ) :
    ∀ t ∈ generate_transactions g shuffle num_rows anomaly_percentage,
      t.timestamp % 60 = 0 := by
  intro t ht
  have hinv : PlanInv (runPlan g shuffle num_rows anomaly_percentage) :=
    build_plan_inv g _ _ _ _
  exact ((synthFrom_inv g (List.range num_rows) _ _ hinv).1 t ht).1

theorem C10_whole_minute_timestamps_witness :
    ((generate_transactions (fun _ => 0) id 1 0).getD 0 default) ∈
        generate_transactions (fun _ => 0) id 1 0 ∧
      ((generate_transactions (fun _ => 0) id 1 0).getD 0 default).timestamp
        % 60 = 0 := by
  have hm : ((generate_transactions (fun _ => 0) id 1 0).getD 0 default) ∈
      generate_transactions (fun _ => 0) id 1 0 := by
    rw [List.getD_eq_getElem _ _ (by decide)]
    exact List.getElem_mem _
  exact ⟨hm, C10_whole_minute_timestamps (fun _ => 0) id 1 0 _ hm⟩

theorem fracStr_length : ∀ frac : ℕ, frac < 100 →
    1 ≤ (fracStr frac).length ∧ (fracStr frac).length ≤ 2 := by decide

/-- The number of characters after the decimal point in a serialized
amount (the claim's "fractional digits"). -/
def fracDigitCount (s : String) : ℕ :=
  ((s.toList.dropWhile (fun c => c != '.')).drop 1).length

/-- C6 counterexample: in the run with `num_rows = 1`, `f = 0`, and a
stream whose normal-amount draw hits the top of the Shopping range, the
single record's amount is `500.0`, serialized with one fractional digit,
not two: Python writes `str(float)`, which drops trailing zeros, instead
of a fixed 2-digit format. -/
theorem C6_two_digit_format_cex :
    ¬ (∀ t ∈ generate_transactions (fun p => if p = 3 then 1000000 else 0)
        id 1 0, fracDigitCount (formatAmount t.amount) = 2) := by
  decide

/-- C6 (amended): every amount is a whole number of cents (so it parses
as a valid number with at most two decimals), and its serialized form is
an integer part, a dot, and one *or* two fractional digits — trailing
zeros are dropped, so "exactly 2 digits" does not hold. -/
theorem C6_amount_format (g : RawStream) (shuffle : List ℕ → List ℕ)
    (num_rows : ℕ) (anomaly_percentage : ℚ) :
    ∀ t ∈ generate_transactions g shuffle num_rows anomaly_percentage,
      (∃ z : ℤ, t.amount = (z : ℚ) / 100) ∧
      ∃ b : String,
        formatAmount t.amount =
          toString ((round (100 * t.amount)).fdiv 100) ++ "." ++ b ∧
        1 ≤ b.length ∧ b.length ≤ 2 := by
  intro t ht
  have hinv : PlanInv (runPlan g shuffle num_rows anomaly_percentage) :=
    build_plan_inv g _ _ _ _
  have hcent := ((synthFrom_inv g (List.range num_rows) _ _ hinv).1 t ht).2
  have hq : qRound (qMul (natQ 100) t.amount) = round (100 * t.amount) := by
    rw [qRound_eq, qMul_eq, natQ_eq]
    norm_num
  refine ⟨hcent, fracStr ((round (100 * t.amount)).emod 100).toNat, ?_, ?_⟩
  · show toString ((qRound (qMul (natQ 100) t.amount)).fdiv 100) ++ "." ++
        fracStr ((qRound (qMul (natQ 100) t.amount)).emod 100).toNat =
      toString ((round (100 * t.amount)).fdiv 100) ++ "." ++
        fracStr ((round (100 * t.amount)).emod 100).toNat
    rw [hq]
  · apply fracStr_length
    have h1 : 0 ≤ (round (100 * t.amount)).emod 100 :=
      Int.emod_nonneg _ (by norm_num)
    have h2 : (round (100 * t.amount)).emod 100 < 100 :=
      Int.emod_lt_of_pos _ (by norm_num)
    omega

theorem C6_amount_format_witness :
    ((generate_transactions (fun _ => 0) id 2 0).getD 0 default) ∈
        generate_transactions (fun _ => 0) id 2 0 ∧
      ((∃ z : ℤ, ((generate_transactions (fun _ => 0) id 2 0).getD 0
          default).amount = (z : ℚ) / 100) ∧
        ∃ b : String,
          formatAmount ((generate_transactions (fun _ => 0) id 2 0).getD 0
            default).amount =
            toString ((round (100 * ((generate_transactions (fun _ => 0) id 2
              0).getD 0 default).amount)).fdiv 100) ++ "." ++ b ∧
          1 ≤ b.length ∧ b.length ≤ 2) := by
  have hm : ((generate_transactions (fun _ => 0) id 2 0).getD 0 default) ∈
      generate_transactions (fun _ => 0) id 2 0 := by
    rw [List.getD_eq_getElem _ _ (by decide)]
    exact List.getElem_mem _
  exact ⟨hm, C6_amount_format (fun _ => 0) id 2 0 _ hm⟩

/-- C5: the pipeline is a pure function of the seeded random source and
the parameters: two runs whose single sequential source was seeded
identically (hence expose equal raw streams and an equal shuffle oracle)
and that use the same `num_rows` and `anomaly_percentage` produce the
same record sequence and byte-identical serialized output. -/
theorem C5_determinism (g1 g2 : RawStream) (sh1 sh2 : List ℕ → List ℕ)
    (num_rows : ℕ) (anomaly_percentage : ℚ) (hg : g1 = g2)
    (hsh : sh1 = sh2) :
    generate_transactions g1 sh1 num_rows anomaly_percentage =
      generate_transactions g2 sh2 num_rows anomaly_percentage ∧
    write_csv (generate_transactions g1 sh1 num_rows anomaly_percentage) =
      write_csv (generate_transactions g2 sh2 num_rows anomaly_percentage) := by
  subst hg
  subst hsh
  exact ⟨rfl, rfl⟩

theorem C5_determinism_witness :
    generate_transactions (fun _ => 7) id 3 (1 / 20) =
      generate_transactions (fun _ => 7) id 3 (1 / 20) ∧
    write_csv (generate_transactions (fun _ => 7) id 3 (1 / 20)) =
      write_csv (generate_transactions (fun _ => 7) id 3 (1 / 20)) :=
  C5_determinism (fun _ => 7) (fun _ => 7) id id 3 (1 / 20) rfl rfl

/-- C8: for every row count (including 0) and every anomaly fraction
(including negative fractions and fractions above 1) the run completes
and emits exactly `num_rows` records — negative slot counts yield empty
loops and oversized ones are stopped by the index-exhaustion guards —
and for `num_rows = 0` the output file is exactly the header line. -/
theorem C8_row_count_guard (g : RawStream) (shuffle : List ℕ → List ℕ)
    (anomaly_percentage : ℚ) (num_rows : ℕ) :
    (generate_transactions g shuffle num_rows anomaly_percentage).length =
      num_rows ∧
    write_csv (generate_transactions g shuffle 0 anomaly_percentage) =
      csvHeader := by
  constructor
  · unfold generate_transactions
    rw [synthFrom_length, List.length_range]
  · unfold generate_transactions
    simp [synthFrom, write_csv, String.join]

/-- C3: for every row count and fraction, each row index appears at
most once across all plan entries (the planner pulls successive entries
of one duplicate-free shuffled list and only moves forward), every
planned index comes from that list (no out-of-range access), and every
planned index is a valid row number. -/
theorem C3_planner_disjoint (g : RawStream) (shuffled : List ℕ)
    (num_rows : ℕ) (anomaly_percentage : ℚ) (pos : ℕ)
    (hperm : shuffled.Perm (List.range num_rows)) :
    ((build_plan g shuffled num_rows anomaly_percentage pos).1.map
      Prod.fst).Nodup ∧
    ∀ k ∈ (build_plan g shuffled num_rows anomaly_percentage pos).1.map
      Prod.fst, k ∈ shuffled ∧ k < num_rows := by
  have hnd : shuffled.Nodup := hperm.nodup_iff.mpr (List.nodup_range num_rows)
  refine ⟨build_plan_keys_nodup g _ _ _ _ hnd, fun k hk => ?_⟩
  have hks := build_plan_keys_mem g _ _ _ _ hk
  exact ⟨hks, List.mem_range.mp (hperm.mem_iff.mp hks)⟩

theorem C3_planner_disjoint_witness :
    (List.range 6).Perm (List.range 6) ∧
    (((build_plan (fun _ => 0) (List.range 6) 6 1 0).1.map
        Prod.fst).Nodup ∧
      ∀ k ∈ (build_plan (fun _ => 0) (List.range 6) 6 1 0).1.map
        Prod.fst, k ∈ List.range 6 ∧ k < 6) :=
  ⟨List.Perm.refl _,
   C3_planner_disjoint (fun _ => 0) (List.range 6) 6 1 0 (List.Perm.refl _)⟩

/-- C4: for `num_rows = 500` and `anomaly_percentage = 1/20` (the float
0.05 also yields the exact product 25.0) the planner computes 25 total
anomaly slots split as 8 high-amount rows, 4 pairs (8 rows), and 3
groups (9 rows), the plan covers exactly 25 distinct row indices, and
the synthesizer emits exactly 500 records, one per row index. -/
theorem C4_default_scenario (g : RawStream) (shuffle : List ℕ → List ℕ)
    (h : (shuffle (List.range 500)).length = 500) :
    num_anomalies 500 (1 / 20) = 25 ∧
    high_amount_count 500 (1 / 20) = 8 ∧
    rapid_location_pairs 500 (1 / 20) = 4 ∧
    repeated_small_groups 500 (1 / 20) = 3 ∧
    ((runPlan g shuffle 500 (1 / 20)).map Prod.fst).length = 25 ∧
    (generate_transactions g shuffle 500 (1 / 20)).length = 500 := by
  have hnum : num_anomalies 500 (1 / 20) = 25 := by
    unfold num_anomalies pyInt
    rw [qMul_eq, natQ_eq]
    norm_num
  have hhc : high_amount_count 500 (1 / 20) = 8 := by
    unfold high_amount_count
    rw [hnum]
    decide
  have hpc : rapid_location_pairs 500 (1 / 20) = 4 := by
    unfold rapid_location_pairs
    unfold high_amount_count at hhc
    rw [hnum]
    decide
  have hgc : repeated_small_groups 500 (1 / 20) = 3 := by
    unfold repeated_small_groups
    rw [hnum, hhc, hpc]
    decide
  refine ⟨hnum, hhc, hpc, hgc, ?_, ?_⟩
  · unfold runPlan
    rw [build_plan_keys, List.length_take, h, hhc, hpc, hgc]
    decide
  · unfold generate_transactions
    rw [synthFrom_length, List.length_range]

theorem C4_default_scenario_witness :
    (id (List.range 500)).length = 500 ∧
    (num_anomalies 500 (1 / 20) = 25 ∧
      high_amount_count 500 (1 / 20) = 8 ∧
      rapid_location_pairs 500 (1 / 20) = 4 ∧
      repeated_small_groups 500 (1 / 20) = 3 ∧
      ((runPlan (fun _ => 0) id 500 (1 / 20)).map Prod.fst).length = 25 ∧
      (generate_transactions (fun _ => 0) id 500 (1 / 20)).length = 500) :=
  ⟨by simp, C4_default_scenario (fun _ => 0) id (by simp)⟩

/-! ## Accessing a single row of a run -/

theorem range_split_one {i n : ℕ} (hi : i < n) :
    List.range n = List.range' 0 i ++ i :: List.range' (i + 1) (n - i - 1) := by
  rw [List.range_eq_range']
  have e1 : List.range' 0 i ++ List.range' i (n - i) = List.range' 0 n := by
    have h := List.range'_append 0 i (n - i) 1
    rw [one_mul, Nat.zero_add] at h
    rw [h]
    congr 1
    omega
  have e2 : List.range' i (n - i) = i :: List.range' (i + 1) (n - i - 1) := by
    have h : n - i = (n - i - 1) + 1 := by omega
    nth_rewrite 1 [h]
    rw [List.range'_succ]
  rw [← e1, e2]

theorem generate_row_spec (g : RawStream) (shuffle : List ℕ → List ℕ)
    (num_rows : ℕ) (anomaly_percentage : ℚ) {i : ℕ} (hi : i < num_rows)
    (d : Transaction) :
    ∃ plan1 pos1,
      plookup i plan1 =
        plookup i (runPlan g shuffle num_rows anomaly_percentage) ∧
      (generate_transactions g shuffle num_rows anomaly_percentage).getD i d =
        (synthRow g i plan1 pos1).1 := by
  unfold generate_transactions
  rw [range_split_one hi, synthFrom_append]
  refine ⟨(synthFrom g (List.range' 0 i)
      (runPlan g shuffle num_rows anomaly_percentage)
      (runPlanPos g shuffle num_rows anomaly_percentage)).2.1,
    (synthFrom g (List.range' 0 i)
      (runPlan g shuffle num_rows anomaly_percentage)
      (runPlanPos g shuffle num_rows anomaly_percentage)).2.2, ?_, ?_⟩
  · apply plookup_synthFrom_notMem
    intro hmem
    rw [List.mem_range'] at hmem
    omega
  · rw [List.getD_append_right _ _ _ _
      (by rw [synthFrom_length, List.length_range'])]
    rw [synthFrom_length, List.length_range', Nat.sub_self]
    simp [synthFrom]

/-- C9 counterexample: with `num_rows = 1`, `f = 0` (so row 0 is a
normal row) and a stream drawing day 365, hour 23, minute 59, the
normal-row timestamp is 2024-01-01 23:59:00, which is not strictly
before 2024-01-01 (365 days past the base date): `randint(0, 365)` is
inclusive, so the sampled window spans 366 day values, one more than
the claimed one-year range. -/
theorem C9_coverage_window_cex :
    plookup 0 (runPlan
      (fun p => if p = 6 then 365 else if p = 7 then 23
        else if p = 8 then 59 else 0) id 1 0) = none ∧
    ¬ ((generate_transactions
        (fun p => if p = 6 then 365 else if p = 7 then 23
          else if p = 8 then 59 else 0) id 1 0).getD 0
        default).timestamp < 365 * 86400 := by
  decide

/-- C9 (amended): every normal-row timestamp (a row with no plan entry)
lies in the window `[2023-01-01, 2024-01-02)` — strictly before
2024-01-02, not 2024-01-01: the day offset is drawn from the inclusive
range `[0, 365]`, which covers 366 day values. -/
theorem C9_normal_window (g : RawStream) (shuffle : List ℕ → List ℕ)
    (num_rows : ℕ) (anomaly_percentage : ℚ) {i : ℕ} (hi : i < num_rows)
    (d : Transaction)
    (h : plookup i (runPlan g shuffle num_rows anomaly_percentage) = none) :
    ((generate_transactions g shuffle num_rows anomaly_percentage).getD i
      d).timestamp < 366 * 86400 := by
  obtain ⟨plan1, pos1, hp, hr⟩ :=
    generate_row_spec g shuffle num_rows anomaly_percentage hi d
  rw [hr]
  have hs := synthRow_normal_spec g i plan1 pos1 (hp.trans h)
  omega

theorem C9_normal_window_witness :
    (0 : ℕ) < 1 ∧
    plookup 0 (runPlan (fun _ => 0) id 1 0) = none ∧
    ((generate_transactions (fun _ => 0) id 1 0).getD 0
      default).timestamp < 366 * 86400 :=
  ⟨by decide, by decide,
   C9_normal_window (fun _ => 0) id 1 0 (by decide) default (by decide)⟩

/-- C2 counterexample: a run in which one repeated-small group receives
the member-1 step 20 and the member-2 step 5 (the 5-20 minute step is
drawn independently per member, not once per group), so member 2's
timestamp (base + 2×5 min) falls strictly before member 1's
(base + 1×20 min): the members are not non-decreasing by ordinal
position. -/
theorem C2_nondecreasing_cex :
    plookup 2 (runPlan (fun p => if p = 17 then 15 else 0)
        (fun _ => [6, 7, 4, 5, 1, 2, 3, 0]) 8 1) =
      some (PlanEntry.repeated_small "Amazon" "New York, USA"
        (mkRat 99 100) 0 1) ∧
    plookup 3 (runPlan (fun p => if p = 17 then 15 else 0)
        (fun _ => [6, 7, 4, 5, 1, 2, 3, 0]) 8 1) =
      some (PlanEntry.repeated_small "Amazon" "New York, USA"
        (mkRat 99 100) 0 2) ∧
    ((generate_transactions (fun p => if p = 17 then 15 else 0)
        (fun _ => [6, 7, 4, 5, 1, 2, 3, 0]) 8 1).getD 3 default).timestamp <
      ((generate_transactions (fun p => if p = 17 then 15 else 0)
        (fun _ => [6, 7, 4, 5, 1, 2, 3, 0]) 8 1).getD 2 default).timestamp := by
  decide

/-- C2 (amended): every row carrying a `repeated_small` plan entry
copies the group's merchant, location, and amount verbatim; its ordinal
`k` is 0, 1, or 2; and its timestamp is the group base time plus `k`
times an *independently drawn* 5-20 minute step, hence within
`[base, base + 40 min]`, so any group spans at most one hour — but the
per-member draws mean timestamps need not be non-decreasing in `k`. -/
theorem C2_repeated_small (g : RawStream) (shuffle : List ℕ → List ℕ)
    (num_rows : ℕ) (anomaly_percentage : ℚ) {i : ℕ} {m loc : String}
    {a : ℚ} {bt k : ℕ} (hi : i < num_rows) (d : Transaction)
    (h : plookup i (runPlan g shuffle num_rows anomaly_percentage) =
      some (PlanEntry.repeated_small m loc a bt k)) :
    ((generate_transactions g shuffle num_rows anomaly_percentage).getD i
        d).merchant = m ∧
    ((generate_transactions g shuffle num_rows anomaly_percentage).getD i
        d).location = loc ∧
    ((generate_transactions g shuffle num_rows anomaly_percentage).getD i
        d).amount = a ∧
    k < 3 ∧
    ∃ step, 5 ≤ step ∧ step ≤ 20 ∧
      ((generate_transactions g shuffle num_rows anomaly_percentage).getD i
        d).timestamp = bt + k * step * 60 ∧
      bt ≤ ((generate_transactions g shuffle num_rows
        anomaly_percentage).getD i d).timestamp ∧
      ((generate_transactions g shuffle num_rows anomaly_percentage).getD i
        d).timestamp ≤ bt + 2400 := by
  have hk3 := build_plan_repeated_shape g
    (shuffle (List.range num_rows)) num_rows anomaly_percentage 0 h
  obtain ⟨plan1, pos1, hp, hr⟩ :=
    generate_row_spec g shuffle num_rows anomaly_percentage hi d
  have hs := synthRow_repeated_spec g i plan1 pos1 (hp.trans h)
  obtain ⟨step, h5, h20, hts⟩ := hs.2.2.2.2
  rw [hr]
  refine ⟨hs.1, hs.2.1, hs.2.2.1, hk3.1, step, h5, h20, hts, ?_, ?_⟩
  · rw [hts]; omega
  · rw [hts]
    have : k ≤ 2 := by omega
    have : k * step ≤ 2 * 20 := Nat.mul_le_mul this h20
    omega

theorem C2_repeated_small_witness :
    (0 : ℕ) < 8 ∧
    plookup 0 (runPlan (fun _ => 0) (fun _ => [3, 4, 1, 2, 0, 5, 6, 7]) 8 1) =
      some (PlanEntry.repeated_small "Amazon" "New York, USA"
        (mkRat 99 100) 0 0) ∧
    (((generate_transactions (fun _ => 0)
        (fun _ => [3, 4, 1, 2, 0, 5, 6, 7]) 8 1).getD 0
        default).merchant = "Amazon" ∧
      ((generate_transactions (fun _ => 0)
          (fun _ => [3, 4, 1, 2, 0, 5, 6, 7]) 8 1).getD 0
        default).location = "New York, USA" ∧
      ((generate_transactions (fun _ => 0)
          (fun _ => [3, 4, 1, 2, 0, 5, 6, 7]) 8 1).getD 0
        default).amount = mkRat 99 100 ∧
      (0 : ℕ) < 3 ∧
      ∃ step, 5 ≤ step ∧ step ≤ 20 ∧
        ((generate_transactions (fun _ => 0)
            (fun _ => [3, 4, 1, 2, 0, 5, 6, 7]) 8 1).getD 0
          default).timestamp = 0 + 0 * step * 60 ∧
        0 ≤ ((generate_transactions (fun _ => 0)
            (fun _ => [3, 4, 1, 2, 0, 5, 6, 7]) 8 1).getD 0
          default).timestamp ∧
        ((generate_transactions (fun _ => 0)
            (fun _ => [3, 4, 1, 2, 0, 5, 6, 7]) 8 1).getD 0
          default).timestamp ≤ 0 + 2400) :=
  ⟨by decide, by decide,
   C2_repeated_small (fun _ => 0) (fun _ => [3, 4, 1, 2, 0, 5, 6, 7]) 8 1
     (by decide) default (by decide)⟩

/-! ## Accessing the two rows of a location pair -/

theorem range_split_two {i j n : ℕ} (hij : i < j) (hjn : j < n) :
    List.range n = List.range' 0 i ++ i ::
      (List.range' (i + 1) (j - i - 1) ++ j ::
        List.range' (j + 1) (n - j - 1)) := by
  rw [range_split_one (lt_trans hij hjn)]
  have e3 : List.range' (i + 1) (j - i - 1) ++ List.range' j (n - j) =
      List.range' (i + 1) (n - i - 1) := by
    have h := List.range'_append (i + 1) (j - i - 1) (n - j) 1
    rw [one_mul] at h
    have hj : i + 1 + (j - i - 1) = j := by omega
    rw [hj] at h
    rw [h]
    congr 1
    omega
  have e4 : List.range' j (n - j) = j :: List.range' (j + 1) (n - j - 1) := by
    have h : n - j = (n - j - 1) + 1 := by omega
    nth_rewrite 1 [h]
    rw [List.range'_succ]
  rw [← e3, e4]

theorem generate_pair_spec (g : RawStream) (shuffle : List ℕ → List ℕ)
    (num_rows : ℕ) (anomaly_percentage : ℚ) {i j : ℕ} (hij : i < j)
    (hjn : j < num_rows) (d : Transaction) :
    ∃ plan1 pos1 plan2 pos2,
      plookup i plan1 =
        plookup i (runPlan g shuffle num_rows anomaly_percentage) ∧
      (generate_transactions g shuffle num_rows anomaly_percentage).getD i d =
        (synthRow g i plan1 pos1).1 ∧
      plookup j plan2 =
        plookup j (runPlan g shuffle num_rows anomaly_percentage) ∧
      plookup i plan2 = plookup i (synthRow g i plan1 pos1).2.1 ∧
      (generate_transactions g shuffle num_rows anomaly_percentage).getD j d =
        (synthRow g j plan2 pos2).1 := by
  unfold generate_transactions
  rw [range_split_two hij hjn, synthFrom_append]
  set plan0 := runPlan g shuffle num_rows anomaly_percentage with hplan0
  set pos0 := runPlanPos g shuffle num_rows anomaly_percentage with hpos0
  set rA := synthFrom g (List.range' 0 i) plan0 pos0 with hrA
  have hlenA : rA.1.length = i := by rw [hrA, synthFrom_length, List.length_range']
  simp only [synthFrom]
  rw [synthFrom_append g (List.range' (i + 1) (j - i - 1))
    (j :: List.range' (j + 1) (num_rows - j - 1))]
  simp only [synthFrom]
  set rowi := synthRow g i rA.2.1 rA.2.2 with hrowi
  set rB := synthFrom g (List.range' (i + 1) (j - i - 1)) rowi.2.1 rowi.2.2
    with hrB
  have hlenB : rB.1.length = j - i - 1 := by
    rw [hrB, synthFrom_length, List.length_range']
  set rowj := synthRow g j rB.2.1 rB.2.2 with hrowj
  refine ⟨rA.2.1, rA.2.2, rB.2.1, rB.2.2, ?_, ?_, ?_, ?_, ?_⟩
  · rw [hrA]
    apply plookup_synthFrom_notMem
    intro hmem
    rw [List.mem_range'] at hmem
    omega
  · rw [List.getD_append_right _ _ _ _ (by omega), hlenA, Nat.sub_self]
    rfl
  · have h1 : plookup j rB.2.1 = plookup j rowi.2.1 := by
      rw [hrB]
      apply plookup_synthFrom_notMem
      intro hmem
      rw [List.mem_range'] at hmem
      omega
    have h2 : plookup j rowi.2.1 = plookup j rA.2.1 := by
      rw [hrowi]
      exact plookup_synthRow_ne g i rA.2.1 rA.2.2 (by omega)
    have h3 : plookup j rA.2.1 = plookup j plan0 := by
      rw [hrA]
      apply plookup_synthFrom_notMem
      intro hmem
      rw [List.mem_range'] at hmem
      omega
    rw [h1, h2, h3]
  · rw [hrB]
    apply plookup_synthFrom_notMem
    intro hmem
    rw [List.mem_range'] at hmem
    omega
  · have hassoc :
        rA.1 ++ rowi.1 :: (rB.1 ++ rowj.1 :: (synthFrom g
          (List.range' (j + 1) (num_rows - j - 1)) rowj.2.1 rowj.2.2).1) =
        (rA.1 ++ rowi.1 :: rB.1) ++ rowj.1 :: (synthFrom g
          (List.range' (j + 1) (num_rows - j - 1)) rowj.2.1 rowj.2.2).1 := by
      rw [← List.cons_append, ← List.append_assoc]
    rw [hassoc]
    have hlen : (rA.1 ++ rowi.1 :: rB.1).length = j := by
      rw [List.length_append, List.length_cons, hlenA, hlenB]
      omega
    rw [List.getD_append_right _ _ _ _ (by omega), hlen, Nat.sub_self]
    rfl

/-- C1 counterexample: the pair rows come from a shuffled list, so the
second record of a pair can occupy a *smaller* row index than its first
record.  In this run the pair is (first at row 5, second at row 1); when
row 1 is synthesized, row 5 has not yet stored its timestamp, so the
code's fallback draws an independent random timestamp and the second
record (timestamp 0) is not strictly after its first record (also
timestamp 0). -/
theorem C1_pair_window_cex :
    plookup 5 (runPlan (fun _ => 0) (fun _ => [2, 3, 5, 1, 0, 4, 6, 7]) 8 1) =
      some (PlanEntry.rapid_first 0 none) ∧
    plookup 1 (runPlan (fun _ => 0) (fun _ => [2, 3, 5, 1, 0, 4, 6, 7]) 8 1) =
      some (PlanEntry.rapid_second 0 5) ∧
    ¬ ((generate_transactions (fun _ => 0)
        (fun _ => [2, 3, 5, 1, 0, 4, 6, 7]) 8 1).getD 5 default).timestamp <
      ((generate_transactions (fun _ => 0)
        (fun _ => [2, 3, 5, 1, 0, 4, 6, 7]) 8 1).getD 1 default).timestamp := by
  decide

theorem synthRow_second_loc (g : RawStream) (j : ℕ) (plan : Plan) (pos : ℕ)
    {p fi : ℕ} (h : plookup j plan = some (PlanEntry.rapid_second p fi)) :
    (synthRow g j plan pos).1.location ∈ LOCATIONS_INTERNATIONAL := by
  unfold synthRow
  simp only [h]
  rcases hq : (if fi ≠ 0 then plookup fi plan else none) with _ | fe
  · simp only [hq]
    exact choice_mem (by decide)
  · cases fe with
    | rapid_first q o2 =>
      cases o2 with
      | none =>
        simp only [hq]
        exact choice_mem (by decide)
      | some ts1 =>
        simp only [hq]
        exact choice_mem (by decide)
    | high_amount =>
      simp only [hq]
      exact choice_mem (by decide)
    | rapid_second q f2 =>
      simp only [hq]
      exact choice_mem (by decide)
    | repeated_small m l a bt k =>
      simp only [hq]
      exact choice_mem (by decide)

/-- C1 (amended): *every* pair row — whatever its position in the
shuffled order — draws its location from the fixed list of its role:
the first record of a pair from the domestic list, the second from the
international list.  The second record's timestamp is the first
record's plus 1 to 5 whole minutes (strictly after, within 5 minutes)
*provided* the first record's row index precedes the second's and is
nonzero (the code's `if first_idx` test treats row 0 as missing); when
the shuffled order puts the second row first, or the first row is row
0, the second record instead falls back to an independent uniform
timestamp. -/
theorem C1_location_pair (g : RawStream) (shuffle : List ℕ → List ℕ)
    (num_rows : ℕ) (anomaly_percentage : ℚ) :
    (∀ (i q : ℕ) (o : Option ℕ) (d : Transaction), i < num_rows →
      plookup i (runPlan g shuffle num_rows anomaly_percentage) =
        some (PlanEntry.rapid_first q o) →
      ((generate_transactions g shuffle num_rows anomaly_percentage).getD i
        d).location ∈ LOCATIONS_USA) ∧
    (∀ (j p fi : ℕ) (d : Transaction), j < num_rows →
      plookup j (runPlan g shuffle num_rows anomaly_percentage) =
        some (PlanEntry.rapid_second p fi) →
      ((generate_transactions g shuffle num_rows anomaly_percentage).getD j
        d).location ∈ LOCATIONS_INTERNATIONAL) ∧
    (∀ (i j p q : ℕ) (o : Option ℕ) (d : Transaction), i < j →
      j < num_rows → i ≠ 0 →
      plookup i (runPlan g shuffle num_rows anomaly_percentage) =
        some (PlanEntry.rapid_first q o) →
      plookup j (runPlan g shuffle num_rows anomaly_percentage) =
        some (PlanEntry.rapid_second p i) →
      ∃ mnt, 1 ≤ mnt ∧ mnt ≤ 5 ∧
        ((generate_transactions g shuffle num_rows anomaly_percentage).getD j
          d).timestamp =
        ((generate_transactions g shuffle num_rows anomaly_percentage).getD i
          d).timestamp + mnt * 60) := by
  refine ⟨?_, ?_, ?_⟩
  · intro i q o d hi h
    obtain ⟨plan1, pos1, hp, hr⟩ :=
      generate_row_spec g shuffle num_rows anomaly_percentage hi d
    rw [hr]
    exact (synthRow_first_spec g i plan1 pos1 (hp.trans h)).1
  · intro j p fi d hj h
    obtain ⟨plan1, pos1, hp, hr⟩ :=
      generate_row_spec g shuffle num_rows anomaly_percentage hj d
    rw [hr]
    exact synthRow_second_loc g j plan1 pos1 (hp.trans h)
  · intro i j p q o d hij hjn hi0 hfirst hsecond
    obtain ⟨plan1, pos1, plan2, pos2, hp1, hr1, hp2j, hp2i, hr2⟩ :=
      generate_pair_spec g shuffle num_rows anomaly_percentage hij hjn d
    have hfirst1 : plookup i plan1 = some (PlanEntry.rapid_first q o) :=
      hp1.trans hfirst
    have hfs := synthRow_first_spec g i plan1 pos1 hfirst1
    have hpi2 : plookup i plan2 =
        some (PlanEntry.rapid_first q
          (some (synthRow g i plan1 pos1).1.timestamp)) := by
      rw [hp2i, hfs.2.1, plookup_setPairTimestamp, if_pos rfl, hfirst1]
      rfl
    have hsec2 : plookup j plan2 = some (PlanEntry.rapid_second p i) :=
      hp2j.trans hsecond
    have hss := synthRow_second_spec g j plan2 pos2 hsec2 hi0 hpi2
    obtain ⟨mnt, h1, h5, hts⟩ := hss.2.2
    refine ⟨mnt, h1, h5, ?_⟩
    rw [hr2, hts, hr1]

theorem C1_location_pair_witness :
    ((5 : ℕ) < 8 ∧
      plookup 5 (runPlan (fun _ => 0)
          (fun _ => [2, 3, 5, 1, 0, 4, 6, 7]) 8 1) =
        some (PlanEntry.rapid_first 0 none) ∧
      ((generate_transactions (fun _ => 0)
          (fun _ => [2, 3, 5, 1, 0, 4, 6, 7]) 8 1).getD 5
        default).location ∈ LOCATIONS_USA) ∧
    ((1 : ℕ) < 8 ∧
      plookup 1 (runPlan (fun _ => 0)
          (fun _ => [2, 3, 5, 1, 0, 4, 6, 7]) 8 1) =
        some (PlanEntry.rapid_second 0 5) ∧
      ((generate_transactions (fun _ => 0)
          (fun _ => [2, 3, 5, 1, 0, 4, 6, 7]) 8 1).getD 1
        default).location ∈ LOCATIONS_INTERNATIONAL) ∧
    ((1 : ℕ) < 2 ∧ (2 : ℕ) < 8 ∧ (1 : ℕ) ≠ 0 ∧
      plookup 1 (runPlan (fun _ => 0)
          (fun _ => [3, 4, 1, 2, 0, 5, 6, 7]) 8 1) =
        some (PlanEntry.rapid_first 0 none) ∧
      plookup 2 (runPlan (fun _ => 0)
          (fun _ => [3, 4, 1, 2, 0, 5, 6, 7]) 8 1) =
        some (PlanEntry.rapid_second 0 1) ∧
      ∃ mnt, 1 ≤ mnt ∧ mnt ≤ 5 ∧
        ((generate_transactions (fun _ => 0)
            (fun _ => [3, 4, 1, 2, 0, 5, 6, 7]) 8 1).getD 2
          default).timestamp =
        ((generate_transactions (fun _ => 0)
            (fun _ => [3, 4, 1, 2, 0, 5, 6, 7]) 8 1).getD 1
          default).timestamp + mnt * 60) :=
  ⟨⟨by decide, by decide,
    (C1_location_pair (fun _ => 0) (fun _ => [2, 3, 5, 1, 0, 4, 6, 7]) 8 1).1
      5 0 none default (by decide) (by decide)⟩,
   ⟨by decide, by decide,
    (C1_location_pair (fun _ => 0) (fun _ => [2, 3, 5, 1, 0, 4, 6, 7]) 8 1).2.1
      1 0 5 default (by decide) (by decide)⟩,
   ⟨by decide, by decide, by decide, by decide, by decide,
    (C1_location_pair (fun _ => 0) (fun _ => [3, 4, 1, 2, 0, 5, 6, 7]) 8 1).2.2
      1 2 0 0 none default (by decide) (by decide) (by decide)
      (by decide) (by decide)⟩⟩
